import Mathlib

/-!
# Verification of the Hack assembler core (src/lib.rs, src/main.rs)

Shallow embedding of the assembler: line classification (`parse_line`),
the two instruction encoders (`ADecoder.decode`, `CDecoder.decode`), the
two-pass symbol resolver (`SymbolTable.new`, `parse_label_in_line`,
`parse_variable_in_line`, `parse_file`) and the driver loop
(`assembleUnit`).  Rust `HashMap` values are modelled as association
lists where insertion conses the new binding in front (so the most
recent binding for a key wins, matching `HashMap::insert` overwrite
semantics); Rust panics (`unwrap` on a missing key or index) are
modelled by `Option`, `none` meaning the process aborts.
-/

/-! ## String helpers mirroring the Rust standard library -/

/-- `str::split` on a character predicate, on the character list.
Keeps empty tokens, and yields one (possibly empty) token even for the
empty input, exactly like Rust's `split`.  `acc` is the current token
read so far, in reverse. -/
def splitChars (p : Char → Bool) : List Char → List Char → List (List Char)
  | [], acc => [acc.reverse]
  | c :: rest, acc =>
    if p c then acc.reverse :: splitChars p rest []
    else splitChars p rest (c :: acc)

/-- `str::split` on a character predicate, producing `String` tokens. -/
def strSplit (s : String) (p : Char → Bool) : List String :=
  (splitChars p s.data []).map String.mk

/-- `str::starts_with` on a character predicate (true iff the first
character exists and satisfies the predicate). -/
def startsWithPred (s : String) (p : Char → Bool) : Bool :=
  match s.data with
  | [] => false
  | c :: _ => p c

/-- `str::contains(char)`. -/
def strContains (s : String) (c : Char) : Bool :=
  s.data.any (fun a => a = c)

/-- `str::trim_left_matches(char)`: drop every leading occurrence. -/
def trimLeftMatches (s : String) (c : Char) : String :=
  String.mk (s.data.dropWhile (fun a => a = c))

/-- The numeric value of a decimal digit character, if it is one. -/
def digitVal (c : Char) : Option Nat :=
  if '0' ≤ c ∧ c ≤ '9' then some (c.toNat - '0'.toNat) else none

/-- Accumulating decimal evaluation of a digit list; fails on any
non-digit character. -/
def parseDigitsAux : List Char → Nat → Option Nat
  | [], acc => some acc
  | c :: rest, acc =>
    match digitVal c with
    | some d => parseDigitsAux rest (acc * 10 + d)
    | none => none

/-- One or more decimal digits evaluated as a natural number. -/
def parseNatDigits : List Char → Option Nat
  | [] => none
  | c :: rest => parseDigitsAux (c :: rest) 0

/-- `str::parse::<i32>()`: optional single sign, then one or more
decimal digits, and the value must fit in the `i32` range. -/
def parseI32 (s : String) : Option Int :=
  match s.data with
  | [] => none
  | c :: rest =>
    if c = '+' then
      (parseNatDigits rest).bind fun n =>
        if n ≤ 2147483647 then some (n : Int) else none
    else if c = '-' then
      (parseNatDigits rest).bind fun n =>
        if n ≤ 2147483648 then some (-(n : Int)) else none
    else
      (parseNatDigits (c :: rest)).bind fun n =>
        if n ≤ 2147483647 then some (n : Int) else none

/-! ## Binary formatting (`format!("{:015b}", address)` on an `i32`) -/

/-- The binary digits of a positive natural number, most significant
first; empty for `0`.  Structural recursion on a fuel argument (the
fuel never runs out when it starts at the number itself). -/
def binDigitsF : Nat → Nat → List Char
  | _, 0 => []
  | 0, _ + 1 => []
  | f + 1, n + 1 =>
    binDigitsF f ((n + 1) / 2) ++ [if (n + 1) % 2 = 1 then '1' else '0']

/-- The binary digits of a positive natural number, most significant
first; empty for `0`. -/
def binDigits (n : Nat) : List Char := binDigitsF n n

/-- `{:b}` on a natural number: `"0"` for zero, else its binary digits. -/
def natToBin (n : Nat) : List Char :=
  if n = 0 then ['0'] else binDigits n

/-- `{:015b}` on an `i32`: the binary form (two's complement on 32 bits
for a negative value), left-padded with `'0'` to width 15. -/
def format015b (a : Int) : List Char :=
  let bits := if 0 ≤ a then natToBin a.toNat else natToBin (a + 4294967296).toNat
  List.replicate (15 - bits.length) '0' ++ bits

/-! ## Encoders -/

/-- `ADecoder::decode`: parse field 0 as an `i32` and emit `'0'`
followed by its 15-wide binary form.  The two `unwrap`s of the source
(missing field, failed parse) are the `Option` binds. -/
def ADecoder.decode (instruct_fields : List String) : Option String :=
  match instruct_fields.get? 0 with
  | none => none
  | some tok =>
    match parseI32 tok with
    | none => none
    | some address => some (String.mk ('0' :: format015b address))

/-- First-match lookup in an association list (the model of
`HashMap::get`). -/
def lookupStr : List (String × String) → String → Option String
  | [], _ => none
  | (k, v) :: rest, key => if k = key then some v else lookupStr rest key

/-- `CDecoder`: the three mnemonic dictionaries, loaded externally. -/
structure CDecoder where
  dest_map : List (String × String)
  comp_map : List (String × String)
  jump_map : List (String × String)

/-- `CDecoder::decode`: `"111"` then comp, dest, jump binary codes.
Dictionary and field `unwrap`s are `Option` binds. -/
def CDecoder.decode (self : CDecoder) (instruct_fields : List String)
    (dest jump : Bool) : Option String :=
  match
    (if dest then
      match instruct_fields.get? 0 with
      | none => none
      | some d => lookupStr self.dest_map d
    else some "000") with
  | none => none
  | some dest_bin =>
    match instruct_fields.get? (if dest then 1 else 0) with
    | none => none
    | some comp =>
      match lookupStr self.comp_map comp with
      | none => none
      | some comp_bin =>
        match
          (if jump then
            match instruct_fields.get? (instruct_fields.length - 1) with
            | none => none
            | some j => lookupStr self.jump_map j
          else some "000") with
        | none => none
        | some jump_bin => some ("111" ++ comp_bin ++ dest_bin ++ jump_bin)

/-! ## Line classifier (`parse_line`) -/

/-- The split line together with the info map of `parse_line`:
`a_instruction` is the constructor; `dest`/`jump` are the two booleans
inserted for a C instruction. -/
inductive Parsed where
  | address (fields : List String)
  | compute (fields : List String) (dest : Bool) (jump : Bool)
deriving DecidableEq

/-- `parse_line`: `'@'` lines are Address (strip the `'@'` prefix, split
on spaces, truncate to 1 token when longer); everything else is Compute
(dest iff the line contains `'='`, jump iff it contains `';'`, split on
`'='`/`';'`/`' '` and truncate to `3 - missing dest - missing jump`). -/
def parse_line (line : String) : Parsed :=
  if startsWithPred line (fun c => c = '@') then
    let trimmed_line := trimLeftMatches line '@'
    let split_line := strSplit trimmed_line (fun c => c = ' ')
    Parsed.address (if split_line.length > 1 then split_line.take 1 else split_line)
  else
    let dest := strContains line '='
    let jump := strContains line ';'
    let max_c_fields : Nat :=
      3 - (if dest then 0 else 1) - (if jump then 0 else 1)
    Parsed.compute
      ((strSplit line (fun c => c = '=' || c = ';' || c = ' ')).take max_c_fields)
      dest jump

/-! ## Symbol table -/

/-- `symbol_map : HashMap<String, i32>` modelled as an association list;
the head is the most recent insertion. -/
abbrev SymbolTable := List (String × Int)

/-- `HashMap::get` on the symbol map. -/
def lookupSym : SymbolTable → String → Option Int
  | [], _ => none
  | (k, v) :: rest, key => if k = key then some v else lookupSym rest key

/-- `HashMap::insert` (the new binding shadows any older one). -/
def insertSym (m : SymbolTable) (k : String) (v : Int) : SymbolTable :=
  (k, v) :: m

/-- `HashMap::contains_key`. -/
def containsKey (m : SymbolTable) (k : String) : Bool :=
  (lookupSym m k).isSome

/-- `SymbolTable::new`: insert the seed-file pairs, then the seven fixed
symbols, then `R0`..`R15` — later insertions shadow the seed. -/
def SymbolTable.new (predef : List (String × Int)) : SymbolTable :=
  let m : SymbolTable := []
  let m := predef.foldl (fun acc p => insertSym acc p.1 p.2) m
  let m := insertSym m "SP" 0
  let m := insertSym m "LCL" 1
  let m := insertSym m "ARG" 2
  let m := insertSym m "THIS" 3
  let m := insertSym m "THAT" 4
  let m := insertSym m "SCREEN" 16384
  let m := insertSym m "KBD" 24576
  (List.range 16).foldl
    (fun acc num => insertSym acc ("R" ++ toString num) (num : Int)) m

/-- `SymbolTable::parse_label_in_line` (pass 1 step): comment/space
lines are skipped; a `'('` line binds its label (token 1 of the split on
`'('`/`')'`/`' '`) to the current line number when unbound, and does not
advance the counter; any other line advances the counter by 1.  The
source's `split_line[1]` panic is the `none` branch. -/
def parse_label_in_line (m : SymbolTable) (line : String) (line_num : Int) :
    Option (SymbolTable × Int) :=
  if startsWithPred line (fun c => c = ' ' || c = '/') then some (m, line_num)
  else if startsWithPred line (fun c => c = '(') then
    match (strSplit line (fun c => c = '(' || c = ')' || c = ' ')).get? 1 with
    | none => none
    | some label =>
      if containsKey m label then some (m, line_num)
      else some (insertSym m label line_num, line_num)
  else some (m, line_num + 1)

/-- `SymbolTable::parse_variable_in_line` (pass 2 step): comment, space
and label lines are no-ops writing nothing; an `'@'` line with a
non-`i32` operand binds it to `next_mem` when unbound and writes the
looked-up address; an `'@'` line with an `i32` operand, and any other
line, is written unchanged.  The third component is the list of lines
written to the intermediate file (without the `'\n'`). -/
def parse_variable_in_line (m : SymbolTable) (line : String) (next_mem : Int) :
    Option (SymbolTable × Int × List String) :=
  if startsWithPred line (fun c => c = ' ' || c = '/' || c = '(') then
    some (m, next_mem, [])
  else if startsWithPred line (fun c => c = '@') then
    match (strSplit line (fun c => c = '@' || c = ' ')).get? 1 with
    | none => none
    | some varTok =>
      if (parseI32 varTok).isSome = false then
        let st := if containsKey m varTok then (m, next_mem)
                  else (insertSym m varTok next_mem, next_mem + 1)
        match lookupSym st.1 varTok with
        | none => none
        | some v => some (st.1, st.2, ["@" ++ toString v])
      else some (m, next_mem, [line])
  else some (m, next_mem, [line])

/-- Pass 1 of `SymbolTable::parse_file`: fold `parse_label_in_line` over
the lines, skipping empty ones. -/
def pass1 (m : SymbolTable) (line_num : Int) : List String → Option (SymbolTable × Int)
  | [] => some (m, line_num)
  | line :: rest =>
    if line.data.isEmpty then pass1 m line_num rest
    else match parse_label_in_line m line line_num with
      | none => none
      | some (m2, n2) => pass1 m2 n2 rest

/-- Pass 2 of `SymbolTable::parse_file`: fold `parse_variable_in_line`
over the lines, skipping empty ones and accumulating the written
intermediate lines in order. -/
def pass2 (m : SymbolTable) (next_mem : Int) : List String → Option (SymbolTable × Int × List String)
  | [] => some (m, next_mem, [])
  | line :: rest =>
    if line.data.isEmpty then pass2 m next_mem rest
    else match parse_variable_in_line m line next_mem with
      | none => none
      | some (m2, nm2, out) =>
        match pass2 m2 nm2 rest with
        | none => none
        | some (m3, nm3, outs) => some (m3, nm3, out ++ outs)

/-- `SymbolTable::parse_file`: pass 1 from ROM counter 0, then pass 2
over the same lines from free address 16; result is the final table and
the intermediate file contents. -/
def parse_file (m : SymbolTable) (lines : List String) :
    Option (SymbolTable × List String) :=
  match pass1 m 0 lines with
  | none => none
  | some (m1, _) =>
    match pass2 m1 16 lines with
    | none => none
    | some (m2, _, out) => some (m2, out)

/-! ## Driver encode loop (`main`) -/

/-- One iteration of `main`'s encode loop: classify the line and
dispatch on the `a_instruction` flag. -/
def assembleLine (c : CDecoder) (line : String) : Option String :=
  match parse_line line with
  | Parsed.address fields => ADecoder.decode fields
  | Parsed.compute fields d j => CDecoder.decode c fields d j

/-- `main`'s encode loop over an assembled unit: every line must encode,
a panic (`none`) anywhere aborts the unit with no output. -/
def assembleUnit (c : CDecoder) : List String → Option (List String)
  | [] => some []
  | line :: rest =>
    match assembleLine c line with
    | none => none
    | some b =>
      match assembleUnit c rest with
      | none => none
      | some bs => some (b :: bs)

/-! ## Derived notions used in the statements -/

/-- A character is `'0'` or `'1'`. -/
def isBinChar (c : Char) : Bool := c = '0' || c = '1'

/-- A string made only of `'0'`/`'1'`. -/
def binStr (s : String) : Bool := s.data.all isBinChar

/-- A mnemonic dictionary is well formed at width `w` when every stored
code is a `w`-character binary string (the spec's 3-bit and 7-bit
codes). -/
def wfDict (m : List (String × String)) (w : Nat) : Prop :=
  ∀ kv ∈ m, (kv.2 : String).length = w ∧ binStr kv.2 = true

/-- Lines that advance the ROM counter in pass 1: nonempty, and not a
comment, space or label line. -/
def isInstrLine (line : String) : Bool :=
  !line.data.isEmpty &&
    !startsWithPred line (fun c => c = ' ' || c = '/' || c = '(')

/-- Number of ROM-counter-advancing lines, as an `i32` value. -/
def instrCount (lines : List String) : Int :=
  ((lines.filter isInstrLine).length : Int)

/-- The label name pass 1 extracts from a label-definition line:
token 1 of the split on `'('`/`')'`/`' '`, for lines starting `'('`. -/
def labelNameOf (line : String) : Option String :=
  if startsWithPred line (fun c => c = '(') then
    (strSplit line (fun c => c = '(' || c = ')' || c = ' ')).get? 1
  else none

/-- Modelled from the spec: a non-negative integer literal, i.e. one or
more decimal digits with no sign (the wording of the pass-2 claim,
to be compared with the source's `parse::<i32>().is_ok()` test). -/
def specNonNegLiteral (s : String) : Bool :=
  (parseNatDigits s.data).isSome

/-! ## Helper lemmas: binary formatting -/

theorem binDigitsF_congr : ∀ n f g, n ≤ f → n ≤ g → binDigitsF f n = binDigitsF g n := by
  intro n
  induction n using Nat.strong_induction_on with
  | _ n ih =>
    intro f g hf hg
    match n, f, g with
    | 0, f, g => cases f <;> cases g <;> rfl
    | m + 1, f + 1, g + 1 =>
      rw [binDigitsF, binDigitsF]
      have hlt : (m + 1) / 2 < m + 1 := Nat.div_lt_self (Nat.succ_pos m) (by norm_num)
      have hle : (m + 1) / 2 ≤ m := by omega
      rw [ih ((m + 1) / 2) hlt f g (by omega) (by omega)]

theorem binDigits_zero : binDigits 0 = [] := rfl

theorem binDigits_succ (n : Nat) :
    binDigits (n + 1) =
      binDigits ((n + 1) / 2) ++ [if (n + 1) % 2 = 1 then '1' else '0'] := by
  unfold binDigits
  rw [binDigitsF]
  have hle : (n + 1) / 2 ≤ n := by omega
  rw [binDigitsF_congr ((n + 1) / 2) n ((n + 1) / 2) hle (le_refl _)]

theorem binDigits_all : ∀ n, (binDigits n).all isBinChar = true := by
  intro n
  induction n using Nat.strong_induction_on with
  | _ n ih =>
    match n with
    | 0 => simp [binDigits_zero]
    | m + 1 =>
      rw [binDigits_succ, List.all_append]
      have h1 := ih ((m + 1) / 2) (Nat.div_lt_self (Nat.succ_pos m) (by norm_num))
      rw [h1]
      by_cases hc : (m + 1) % 2 = 1 <;> simp [hc, isBinChar]

theorem binDigits_length_le : ∀ k n, n < 2 ^ k → (binDigits n).length ≤ k := by
  intro k
  induction k with
  | zero =>
    intro n hn
    interval_cases n
    simp [binDigits_zero]
  | succ k ih =>
    intro n hn
    match n with
    | 0 => simp [binDigits_zero]
    | m + 1 =>
      rw [binDigits_succ, List.length_append]
      have hd : (m + 1) / 2 < 2 ^ k := by
        apply Nat.div_lt_of_lt_mul
        rw [pow_succ] at hn
        omega
      have := ih ((m + 1) / 2) hd
      simp
      omega

theorem natToBin_all (n : Nat) : (natToBin n).all isBinChar = true := by
  unfold natToBin
  by_cases h : n = 0
  · simp [h, isBinChar]
  · simp [h, binDigits_all]

theorem natToBin_length_le (n k : Nat) (hn : n < 2 ^ k) (hk : 0 < k) :
    (natToBin n).length ≤ k := by
  unfold natToBin
  by_cases h : n = 0
  · simp [h]; omega
  · simp [h]; exact binDigits_length_le k n hn

theorem format015b_length (a : Int) (h0 : 0 ≤ a) (h : a < 32768) :
    (format015b a).length = 15 := by
  unfold format015b
  simp only [h0, if_pos, List.length_append, List.length_replicate]
  have hlt : a.toNat < 2 ^ 15 := by omega
  have := natToBin_length_le a.toNat 15 hlt (by norm_num)
  omega

theorem format015b_all (a : Int) : (format015b a).all isBinChar = true := by
  unfold format015b
  by_cases h0 : 0 ≤ a <;>
    simp [h0, List.all_append, natToBin_all, List.all_eq_true, isBinChar]

/-! ## Helper lemmas: association lists and splitting -/

theorem lookupStr_mem :
    ∀ (m : List (String × String)) (key v : String),
      lookupStr m key = some v → ∃ k, (k, v) ∈ m := by
  intro m
  induction m with
  | nil => intro key v h; simp [lookupStr] at h
  | cons kv rest ih =>
    intro key v h
    rw [lookupStr.eq_def] at h
    obtain ⟨k0, v0⟩ := kv
    by_cases hk : k0 = key
    · simp [hk] at h
      exact ⟨key, by simp [h, hk]⟩
    · simp [hk] at h
      obtain ⟨k, hmem⟩ := ih key v h
      exact ⟨k, by simp [hmem]⟩

theorem lookup_insert (m : SymbolTable) (k : String) (v : Int) (key : String) :
    lookupSym (insertSym m k v) key = if k = key then some v else lookupSym m key :=
  rfl

theorem splitChars_ne_nil (p : Char → Bool) :
    ∀ (l acc : List Char), splitChars p l acc ≠ [] := by
  intro l
  induction l with
  | nil => intro acc; simp [splitChars]
  | cons c rest ih =>
    intro acc
    rw [splitChars]
    by_cases hc : p c <;> simp [hc, ih]

theorem strSplit_marker_get1 (s : String) (p : Char → Bool) (c : Char)
    (rest : List Char) (hd : s.data = c :: rest) (hp : p c = true) :
    ∃ tok, (strSplit s p).get? 1 = some tok := by
  unfold strSplit
  rw [hd, splitChars, if_pos hp]
  match hs : splitChars p rest [] with
  | [] => exact absurd hs (splitChars_ne_nil p rest [])
  | t :: ts => exact ⟨String.mk t, rfl⟩

theorem startsWithPred_iff (s : String) (p : Char → Bool) :
    startsWithPred s p = true ↔ ∃ c rest, s.data = c :: rest ∧ p c = true := by
  unfold startsWithPred
  match hd : s.data with
  | [] => simp
  | c :: rest => simp

theorem startsWithPred_false_of (s : String) (p q : Char → Bool)
    (himp : ∀ c, p c = true → q c = false)
    (h : startsWithPred s p = true) : startsWithPred s q = false := by
  rw [startsWithPred_iff] at h
  obtain ⟨c, rest, hd, hp⟩ := h
  unfold startsWithPred
  rw [hd]
  exact himp c hp

theorem labelNameOf_inv (line : String) (L : String)
    (h : labelNameOf line = some L) :
    startsWithPred line (fun c => c = '(') = true ∧
    (strSplit line (fun c => c = '(' || c = ')' || c = ' ')).get? 1 = some L := by
  unfold labelNameOf at h
  by_cases hc : startsWithPred line (fun c => c = '(') = true
  · exact ⟨hc, by rwa [if_pos hc] at h⟩
  · rw [if_neg hc] at h
    exact absurd h (by simp)

/-! ## Helper lemmas: pass 1 steps -/

theorem parse_label_skip (m : SymbolTable) (line : String) (n : Int)
    (h : startsWithPred line (fun c => c = ' ' || c = '/') = true) :
    parse_label_in_line m line n = some (m, n) := by
  unfold parse_label_in_line
  rw [if_pos h]

theorem parse_label_unbound (m : SymbolTable) (line : String) (n : Int)
    (L : String) (hL : labelNameOf line = some L)
    (hnb : containsKey m L = false) :
    parse_label_in_line m line n = some (insertSym m L n, n) := by
  obtain ⟨hpar, hget⟩ := labelNameOf_inv line L hL
  have hsp : startsWithPred line (fun c => c = ' ' || c = '/') = false := by
    apply startsWithPred_false_of line _ _ _ hpar
    intro c hc
    have : c = '(' := by simpa using hc
    subst this
    decide
  unfold parse_label_in_line
  rw [hsp, hpar]
  simp only [Bool.false_eq_true, if_false, if_true]
  rw [hget]
  simp [hnb]

theorem parse_label_bound (m : SymbolTable) (line : String) (n : Int)
    (L : String) (hL : labelNameOf line = some L)
    (hb : containsKey m L = true) :
    parse_label_in_line m line n = some (m, n) := by
  obtain ⟨hpar, hget⟩ := labelNameOf_inv line L hL
  have hsp : startsWithPred line (fun c => c = ' ' || c = '/') = false := by
    apply startsWithPred_false_of line _ _ _ hpar
    intro c hc
    have : c = '(' := by simpa using hc
    subst this
    decide
  unfold parse_label_in_line
  rw [hsp, hpar]
  simp only [Bool.false_eq_true, if_false, if_true]
  rw [hget]
  simp [hb]

theorem parse_label_instr (m : SymbolTable) (line : String) (n : Int)
    (h : isInstrLine line = true) :
    parse_label_in_line m line n = some (m, n + 1) := by
  unfold isInstrLine at h
  rw [Bool.and_eq_true] at h
  obtain ⟨-, h3⟩ := h
  have h3f : startsWithPred line (fun c => c = ' ' || c = '/' || c = '(') = false := by
    revert h3; cases startsWithPred line (fun c => c = ' ' || c = '/' || c = '(') <;> simp
  have hsp : startsWithPred line (fun c => c = ' ' || c = '/') = false := by
    unfold startsWithPred at h3f ⊢
    match hd : line.data with
    | [] => rfl
    | c :: rest =>
      rw [hd] at h3f
      revert h3f
      by_cases hc1 : c = ' ' <;> by_cases hc2 : c = '/' <;> simp [hc1, hc2]
  have hpar : startsWithPred line (fun c => c = '(') = false := by
    unfold startsWithPred at h3f ⊢
    match hd : line.data with
    | [] => rfl
    | c :: rest =>
      rw [hd] at h3f
      revert h3f
      by_cases hc : c = '(' <;> simp [hc]
  unfold parse_label_in_line
  rw [hsp, hpar]
  simp

theorem parse_label_total (m : SymbolTable) (line : String) (n : Int) :
    ∃ r, parse_label_in_line m line n = some r := by
  unfold parse_label_in_line
  by_cases hsp : startsWithPred line (fun c => c = ' ' || c = '/') = true
  · rw [if_pos hsp]; exact ⟨(m, n), rfl⟩
  · rw [if_neg hsp]
    by_cases hpar : startsWithPred line (fun c => c = '(') = true
    · rw [if_pos hpar]
      rw [startsWithPred_iff] at hpar
      obtain ⟨c, rest, hd, hp⟩ := hpar
      have hc : c = '(' := by simpa using hp
      subst hc
      obtain ⟨tok, htok⟩ := strSplit_marker_get1 line
        (fun c => c = '(' || c = ')' || c = ' ') '(' rest hd (by decide)
      rw [htok]
      dsimp only
      by_cases hb : containsKey m tok = true
      · rw [if_pos hb]; exact ⟨(m, n), rfl⟩
      · rw [if_neg hb]; exact ⟨(insertSym m tok n, n), rfl⟩
    · rw [if_neg hpar]; exact ⟨(m, n + 1), rfl⟩

/-- The table after a pass-1 step: unchanged, or one new binding of a
previously unbound key. -/
theorem parse_label_shape (m : SymbolTable) (line : String) (n : Int)
    (r : SymbolTable × Int) (h : parse_label_in_line m line n = some r) :
    r.1 = m ∨ ∃ L, containsKey m L = false ∧ r.1 = insertSym m L n := by
  unfold parse_label_in_line at h
  by_cases hsp : startsWithPred line (fun c => c = ' ' || c = '/') = true
  · rw [if_pos hsp] at h
    left; simp at h; rw [← h]
  · rw [if_neg hsp] at h
    by_cases hpar : startsWithPred line (fun c => c = '(') = true
    · rw [if_pos hpar] at h
      match hg : (strSplit line (fun c => c = '(' || c = ')' || c = ' ')).get? 1 with
      | none => rw [hg] at h; exact absurd h (by simp)
      | some label =>
        rw [hg] at h
        dsimp only at h
        by_cases hb : containsKey m label = true
        · rw [if_pos hb] at h; left; simp at h; rw [← h]
        · rw [if_neg hb] at h
          right
          refine ⟨label, by revert hb; cases containsKey m label <;> simp, ?_⟩
          simp at h; rw [← h]
    · rw [if_neg hpar] at h
      left; simp at h; rw [← h]

theorem parse_label_preserve (m : SymbolTable) (line : String) (n : Int)
    (r : SymbolTable × Int) (k : String) (v : Int)
    (hv : lookupSym m k = some v)
    (h : parse_label_in_line m line n = some r) :
    lookupSym r.1 k = some v := by
  rcases parse_label_shape m line n r h with hsame | ⟨L, hnb, hins⟩
  · rw [hsame]; exact hv
  · rw [hins, lookup_insert]
    have hne : L ≠ k := by
      intro he
      rw [he] at hnb
      unfold containsKey at hnb
      rw [hv] at hnb
      simp at hnb
    rw [if_neg hne]
    exact hv

/-! ## Helper lemmas: pass 1 as a fold -/

theorem instrCount_cons (line : String) (rest : List String) :
    instrCount (line :: rest) =
      (if isInstrLine line then 1 else 0) + instrCount rest := by
  unfold instrCount
  rw [List.filter_cons]
  by_cases h : isInstrLine line = true
  · simp [h]
    omega
  · simp [h]

theorem parse_label_count (m : SymbolTable) (line : String) (n : Int)
    (r : SymbolTable × Int) (hne : line.data.isEmpty = false)
    (h : parse_label_in_line m line n = some r) :
    r.2 = n + (if isInstrLine line then 1 else 0) := by
  unfold parse_label_in_line at h
  by_cases hsp : startsWithPred line (fun c => c = ' ' || c = '/') = true
  · rw [if_pos hsp] at h
    have hi : isInstrLine line = false := by
      unfold isInstrLine
      have : startsWithPred line (fun c => c = ' ' || c = '/' || c = '(') = true := by
        rw [startsWithPred_iff] at hsp ⊢
        obtain ⟨c, rest2, hd, hp⟩ := hsp
        refine ⟨c, rest2, hd, ?_⟩
        revert hp
        by_cases h1 : c = ' ' <;> by_cases h2 : c = '/' <;> simp [h1, h2]
      simp [this]
    simp at h
    rw [← h, hi]
    simp
  · rw [if_neg hsp] at h
    by_cases hpar : startsWithPred line (fun c => c = '(') = true
    · rw [if_pos hpar] at h
      have hi : isInstrLine line = false := by
        unfold isInstrLine
        have : startsWithPred line (fun c => c = ' ' || c = '/' || c = '(') = true := by
          rw [startsWithPred_iff] at hpar ⊢
          obtain ⟨c, rest2, hd, hp⟩ := hpar
          have hc : c = '(' := by simpa using hp
          subst hc
          exact ⟨'(', rest2, hd, by decide⟩
        simp [this]
      rw [hi]
      simp only [Bool.false_eq_true, if_false]
      match hg : (strSplit line (fun c => c = '(' || c = ')' || c = ' ')).get? 1 with
      | none => rw [hg] at h; exact absurd h (by simp)
      | some label =>
        rw [hg] at h
        dsimp only at h
        by_cases hb : containsKey m label = true
        · rw [if_pos hb] at h; simp at h; rw [← h]; simp
        · rw [if_neg hb] at h; simp at h; rw [← h]; simp
    · rw [if_neg hpar] at h
      have hi : isInstrLine line = true := by
        unfold isInstrLine
        rw [Bool.and_eq_true]
        constructor
        · revert hne; cases line.data <;> simp
        · have h3 : startsWithPred line (fun c => c = ' ' || c = '/' || c = '(') = false := by
            unfold startsWithPred at hsp hpar ⊢
            match hd : line.data with
            | [] => rfl
            | c :: rest2 =>
              rw [hd] at hsp hpar
              revert hsp hpar
              by_cases h1 : c = ' ' <;> by_cases h2 : c = '/' <;>
                by_cases h3 : c = '(' <;> simp [h1, h2, h3]
          simp [h3]
      rw [hi]
      simp at h
      rw [← h]
      simp

theorem pass1_nil (m : SymbolTable) (n : Int) : pass1 m n [] = some (m, n) := rfl

theorem pass1_cons (m : SymbolTable) (n : Int) (line : String) (rest : List String) :
    pass1 m n (line :: rest) =
      if line.data.isEmpty then pass1 m n rest
      else match parse_label_in_line m line n with
        | none => none
        | some (m2, n2) => pass1 m2 n2 rest := rfl

theorem pass1_append (xs : List String) :
    ∀ (m : SymbolTable) (n : Int) (ys : List String),
      pass1 m n (xs ++ ys) =
        (pass1 m n xs).bind fun r => pass1 r.1 r.2 ys := by
  induction xs with
  | nil => intro m n ys; simp [pass1_nil]
  | cons line rest ih =>
    intro m n ys
    rw [List.cons_append, pass1_cons, pass1_cons]
    by_cases he : line.data.isEmpty = true
    · rw [if_pos he, if_pos he, ih]
    · rw [if_neg he, if_neg he]
      match hr : parse_label_in_line m line n with
      | none => simp
      | some (m2, n2) => simp [ih]

theorem pass1_count (xs : List String) :
    ∀ (m : SymbolTable) (n : Int) (r : SymbolTable × Int),
      pass1 m n xs = some r → r.2 = n + instrCount xs := by
  induction xs with
  | nil =>
    intro m n r h
    rw [pass1_nil] at h
    simp at h
    rw [← h]
    simp [instrCount]
  | cons line rest ih =>
    intro m n r h
    rw [pass1_cons] at h
    rw [instrCount_cons]
    by_cases he : line.data.isEmpty = true
    · rw [if_pos he] at h
      have hi : isInstrLine line = false := by
        unfold isInstrLine
        simp [he]
      rw [hi]
      simp only [Bool.false_eq_true, if_false]
      have := ih m n r h
      omega
    · rw [if_neg he] at h
      match hr : parse_label_in_line m line n with
      | none => rw [hr] at h; exact absurd h (by simp)
      | some (m2, n2) =>
        rw [hr] at h
        dsimp only at h
        have hstep := parse_label_count m line n (m2, n2)
          (by revert he; cases line.data.isEmpty <;> simp) hr
        have := ih m2 n2 r h
        simp at hstep
        omega

theorem pass1_total (xs : List String) :
    ∀ (m : SymbolTable) (n : Int), ∃ r, pass1 m n xs = some r := by
  induction xs with
  | nil => intro m n; exact ⟨(m, n), rfl⟩
  | cons line rest ih =>
    intro m n
    rw [pass1_cons]
    by_cases he : line.data.isEmpty = true
    · rw [if_pos he]; exact ih m n
    · rw [if_neg he]
      obtain ⟨⟨m2, n2⟩, hr⟩ := parse_label_total m line n
      rw [hr]
      exact ih m2 n2

theorem pass1_preserve (xs : List String) :
    ∀ (m : SymbolTable) (n : Int) (r : SymbolTable × Int) (k : String) (v : Int),
      lookupSym m k = some v → pass1 m n xs = some r →
      lookupSym r.1 k = some v := by
  induction xs with
  | nil =>
    intro m n r k v hv h
    rw [pass1_nil] at h
    simp at h
    rw [← h]
    exact hv
  | cons line rest ih =>
    intro m n r k v hv h
    rw [pass1_cons] at h
    by_cases he : line.data.isEmpty = true
    · rw [if_pos he] at h
      exact ih m n r k v hv h
    · rw [if_neg he] at h
      match hr : parse_label_in_line m line n with
      | none => rw [hr] at h; exact absurd h (by simp)
      | some (m2, n2) =>
        rw [hr] at h
        dsimp only at h
        exact ih m2 n2 r k v (parse_label_preserve m line n (m2, n2) k v hv hr) h

/-! ## Helper lemmas: pass 2 steps and fold -/

theorem parse_var_skip (m : SymbolTable) (line : String) (nm : Int)
    (h : startsWithPred line (fun c => c = ' ' || c = '/' || c = '(') = true) :
    parse_variable_in_line m line nm = some (m, nm, []) := by
  unfold parse_variable_in_line
  rw [if_pos h]

theorem startsWithPred_at_false (s : String)
    (h : startsWithPred s (fun c => c = '@') = true) :
    startsWithPred s (fun c => c = ' ' || c = '/' || c = '(') = false := by
  apply startsWithPred_false_of s _ _ _ h
  intro c hc
  have : c = '@' := by simpa using hc
  subst this
  decide

theorem parse_var_numeric (m : SymbolTable) (line : String) (nm : Int)
    (tok : String)
    (hat : startsWithPred line (fun c => c = '@') = true)
    (hget : (strSplit line (fun c => c = '@' || c = ' ')).get? 1 = some tok)
    (hnum : (parseI32 tok).isSome = true) :
    parse_variable_in_line m line nm = some (m, nm, [line]) := by
  unfold parse_variable_in_line
  rw [startsWithPred_at_false line hat]
  simp only [Bool.false_eq_true, if_false]
  rw [hat]
  simp only [if_true]
  rw [hget]
  dsimp only
  rw [hnum]
  simp

theorem parse_var_new (m : SymbolTable) (line : String) (nm : Int)
    (tok : String)
    (hat : startsWithPred line (fun c => c = '@') = true)
    (hget : (strSplit line (fun c => c = '@' || c = ' ')).get? 1 = some tok)
    (hnum : (parseI32 tok).isSome = false)
    (hnb : containsKey m tok = false) :
    parse_variable_in_line m line nm =
      some (insertSym m tok nm, nm + 1, ["@" ++ toString nm]) := by
  unfold parse_variable_in_line
  rw [startsWithPred_at_false line hat]
  simp only [Bool.false_eq_true, if_false]
  rw [hat]
  simp only [if_true]
  rw [hget]
  dsimp only
  rw [hnum]
  simp only [if_true]
  rw [hnb]
  simp [lookup_insert]

theorem parse_var_bound (m : SymbolTable) (line : String) (nm : Int)
    (tok : String) (v : Int)
    (hat : startsWithPred line (fun c => c = '@') = true)
    (hget : (strSplit line (fun c => c = '@' || c = ' ')).get? 1 = some tok)
    (hnum : (parseI32 tok).isSome = false)
    (hb : lookupSym m tok = some v) :
    parse_variable_in_line m line nm = some (m, nm, ["@" ++ toString v]) := by
  unfold parse_variable_in_line
  rw [startsWithPred_at_false line hat]
  simp only [Bool.false_eq_true, if_false]
  rw [hat]
  simp only [if_true]
  rw [hget]
  dsimp only
  rw [hnum]
  simp only [if_true]
  have hck : containsKey m tok = true := by unfold containsKey; rw [hb]; rfl
  rw [hck]
  simp [hb]

/-- The table after a pass-2 step: unchanged, or one new binding of a
previously unbound key. -/
theorem parse_var_shape (m : SymbolTable) (line : String) (nm : Int)
    (r : SymbolTable × Int × List String)
    (h : parse_variable_in_line m line nm = some r) :
    r.1 = m ∨ ∃ tok, containsKey m tok = false ∧ r.1 = insertSym m tok nm := by
  unfold parse_variable_in_line at h
  by_cases h3 : startsWithPred line (fun c => c = ' ' || c = '/' || c = '(') = true
  · rw [if_pos h3] at h
    left; simp at h; rw [← h]
  · rw [if_neg h3] at h
    by_cases hat : startsWithPred line (fun c => c = '@') = true
    · rw [if_pos hat] at h
      match hg : (strSplit line (fun c => c = '@' || c = ' ')).get? 1 with
      | none => rw [hg] at h; exact absurd h (by simp)
      | some tok =>
        rw [hg] at h
        dsimp only at h
        by_cases hnum : (parseI32 tok).isSome = false
        · rw [if_pos hnum] at h
          by_cases hck : containsKey m tok = true
          · rw [if_pos hck] at h
            dsimp only at h
            match hl : lookupSym m tok with
            | none => rw [hl] at h; exact absurd h (by simp)
            | some v =>
              rw [hl] at h
              left; simp at h; rw [← h]
          · rw [if_neg hck] at h
            dsimp only at h
            rw [lookup_insert] at h
            simp only [if_pos rfl] at h
            right
            refine ⟨tok, by revert hck; cases containsKey m tok <;> simp, ?_⟩
            simp at h
            rw [← h]
        · rw [if_neg hnum] at h
          left; simp at h; rw [← h]
    · rw [if_neg hat] at h
      left; simp at h; rw [← h]

theorem parse_var_preserve (m : SymbolTable) (line : String) (nm : Int)
    (r : SymbolTable × Int × List String) (k : String) (v : Int)
    (hv : lookupSym m k = some v)
    (h : parse_variable_in_line m line nm = some r) :
    lookupSym r.1 k = some v := by
  rcases parse_var_shape m line nm r h with hsame | ⟨tok, hnb, hins⟩
  · rw [hsame]; exact hv
  · rw [hins, lookup_insert]
    have hne : tok ≠ k := by
      intro he
      rw [he] at hnb
      unfold containsKey at hnb
      rw [hv] at hnb
      simp at hnb
    rw [if_neg hne]
    exact hv

theorem pass2_nil (m : SymbolTable) (nm : Int) :
    pass2 m nm [] = some (m, nm, []) := rfl

theorem pass2_cons (m : SymbolTable) (nm : Int) (line : String)
    (rest : List String) :
    pass2 m nm (line :: rest) =
      if line.data.isEmpty then pass2 m nm rest
      else match parse_variable_in_line m line nm with
        | none => none
        | some (m2, nm2, out) =>
          match pass2 m2 nm2 rest with
          | none => none
          | some (m3, nm3, outs) => some (m3, nm3, out ++ outs) := rfl

theorem pass2_preserve (xs : List String) :
    ∀ (m : SymbolTable) (nm : Int) (r : SymbolTable × Int × List String)
      (k : String) (v : Int),
      lookupSym m k = some v → pass2 m nm xs = some r →
      lookupSym r.1 k = some v := by
  induction xs with
  | nil =>
    intro m nm r k v hv h
    rw [pass2_nil] at h
    simp at h
    rw [← h]
    exact hv
  | cons line rest ih =>
    intro m nm r k v hv h
    rw [pass2_cons] at h
    by_cases he : line.data.isEmpty = true
    · rw [if_pos he] at h
      exact ih m nm r k v hv h
    · rw [if_neg he] at h
      match hr : parse_variable_in_line m line nm with
      | none => rw [hr] at h; exact absurd h (by simp)
      | some (m2, nm2, out) =>
        rw [hr] at h
        dsimp only at h
        match h2 : pass2 m2 nm2 rest with
        | none => rw [h2] at h; exact absurd h (by simp)
        | some (m3, nm3, outs) =>
          rw [h2] at h
          dsimp only at h
          have := ih m2 nm2 (m3, nm3, outs) k v
            (parse_var_preserve m line nm (m2, nm2, out) k v hv hr) h2
          simp at h
          rw [← h]
          exact this

/-! ## Helper lemmas: parse_file and strings -/

theorem parse_file_inv (m : SymbolTable) (lines : List String)
    (r : SymbolTable × List String) (h : parse_file m lines = some r) :
    ∃ m1 c m2 nm out, pass1 m 0 lines = some (m1, c) ∧
      pass2 m1 16 lines = some (m2, nm, out) ∧ r = (m2, out) := by
  unfold parse_file at h
  match h1 : pass1 m 0 lines with
  | none => rw [h1] at h; exact absurd h (by simp)
  | some (m1, c) =>
    rw [h1] at h
    dsimp only at h
    match h2 : pass2 m1 16 lines with
    | none => rw [h2] at h; exact absurd h (by simp)
    | some (m2, nm, out) =>
      rw [h2] at h
      dsimp only at h
      simp at h
      exact ⟨m1, c, m2, nm, out, rfl, h2, h.symm⟩

theorem strLength_mk (l : List Char) : (String.mk l).length = l.length := rfl

theorem binStr_append (s t : String) :
    binStr (s ++ t) = (binStr s && binStr t) := by
  unfold binStr
  rw [String.data_append, List.all_append]

/-! ## Shared facts about encoder output shapes -/

theorem concat16 (cb db jb : String)
    (hcb : cb.length = 7 ∧ binStr cb = true)
    (hdb : db.length = 3 ∧ binStr db = true)
    (hjb : jb.length = 3 ∧ binStr jb = true) :
    ("111" ++ cb ++ db ++ jb).length = 16 ∧
      binStr ("111" ++ cb ++ db ++ jb) = true := by
  constructor
  · rw [String.length_append, String.length_append, String.length_append]
    have h1 : ("111" : String).length = 3 := rfl
    have := hcb.1
    have := hdb.1
    have := hjb.1
    omega
  · rw [binStr_append, binStr_append, binStr_append, hcb.2, hdb.2, hjb.2]
    rfl

theorem aDecode_shape (fields : List String) (tok : String) (a : Int)
    (hget : fields.get? 0 = some tok) (hparse : parseI32 tok = some a) :
    ADecoder.decode fields = some (String.mk ('0' :: format015b a)) := by
  unfold ADecoder.decode
  rw [hget]
  dsimp only
  rw [hparse]

/-! ## Claims -/

/-- C1 (counterexample): the claim promises a 16-character encoding for
every resolved Address operand, but the operand 32768 = 2^15 needs 16
binary digits, so the encoder emits 17 characters. -/
theorem c1_counterexample_operand_overflow :
    (ADecoder.decode ["32768"]).map String.length = some 17 := by decide

/-- C1 (amended): provided the Address operand is in the 15-bit range
0 ≤ a < 2^15 and the mnemonic dictionaries hold only fixed-width binary
codes (3-bit dest, 7-bit comp, 3-bit jump — the spec's dictionary
model), every encoding either encoder produces has length exactly 16 and
consists only of the characters '0' and '1'. -/
theorem c1_encodings_are_16bit_binary :
    (∀ (fields : List String) (tok : String) (a : Int) (s : String),
      fields.get? 0 = some tok → parseI32 tok = some a →
      0 ≤ a → a < 32768 → ADecoder.decode fields = some s →
      s.length = 16 ∧ binStr s = true) ∧
    (∀ (cdec : CDecoder) (fields : List String) (d j : Bool) (s : String),
      wfDict cdec.dest_map 3 → wfDict cdec.comp_map 7 →
      wfDict cdec.jump_map 3 →
      CDecoder.decode cdec fields d j = some s →
      s.length = 16 ∧ binStr s = true) := by
  constructor
  · intro fields tok a s hget hparse h0 hlt hdec
    rw [aDecode_shape fields tok a hget hparse] at hdec
    simp only [Option.some_inj] at hdec
    subst hdec
    constructor
    · rw [strLength_mk, List.length_cons, format015b_length a h0 hlt]
    · unfold binStr
      show (('0' :: format015b a).all isBinChar) = true
      rw [List.all_cons, format015b_all a]
      rfl
  · intro cdec fields d j s hw1 hw2 hw3 hdec
    unfold CDecoder.decode at hdec
    have h000 : ("000" : String).length = 3 ∧ binStr "000" = true := by
      constructor <;> rfl
    split at hdec
    · exact absurd hdec (by simp)
    next db hdb =>
      split at hdec
      · exact absurd hdec (by simp)
      next cm hcm =>
        split at hdec
        · exact absurd hdec (by simp)
        next cb hcb =>
          split at hdec
          · exact absurd hdec (by simp)
          next jb hjb =>
            simp only [Option.some_inj] at hdec
            subst hdec
            apply concat16
            · obtain ⟨k, hk⟩ := lookupStr_mem _ _ _ hcb
              exact hw2 (k, cb) hk
            · split at hdb
              · split at hdb
                · exact absurd hdb (by simp)
                next d0 hd0 =>
                  obtain ⟨k, hk⟩ := lookupStr_mem _ _ _ hdb
                  exact hw1 (k, db) hk
              · simp at hdb
                subst hdb
                exact h000
            · split at hjb
              · split at hjb
                · exact absurd hjb (by simp)
                next j0 hj0 =>
                  obtain ⟨k, hk⟩ := lookupStr_mem _ _ _ hjb
                  exact hw3 (k, jb) hk
              · simp at hjb
                subst hjb
                exact h000

/-- C1 (witness): the amended theorem applied to the concrete Address
instruction `@100` and to `D=D+1` under a concrete well-formed
dictionary triple. -/
theorem c1_witness :
    (("0000000001100100" : String).length = 16 ∧
      binStr "0000000001100100" = true) ∧
    (("1110011111010000" : String).length = 16 ∧
      binStr "1110011111010000" = true) := by
  constructor
  · exact c1_encodings_are_16bit_binary.1 ["100"] "100" 100 "0000000001100100"
      (by rfl) (by decide) (by decide) (by decide) (by decide)
  · exact c1_encodings_are_16bit_binary.2
      ⟨[("D", "010")], [("D+1", "0011111")], [("JMP", "111")]⟩
      ["D", "D+1"] true false "1110011111010000"
      (by unfold wfDict; decide) (by unfold wfDict; decide)
      (by unfold wfDict; decide) (by decide)

/-- C2: in pass 1, a label line whose extracted name is unbound binds it
to the current ROM counter without advancing the counter; an instruction
line (nonempty, not a comment/space/label line) advances the counter by
1; and for any placement of an unbound label definition in the file, the
bound address equals the number of instruction lines before the label
line — the ROM index of the next instruction — independently of where
references to the label occur. -/
theorem c2_pass1_label_binding :
    (∀ (m : SymbolTable) (line : String) (n : Int) (L : String),
      labelNameOf line = some L → containsKey m L = false →
      parse_label_in_line m line n = some (insertSym m L n, n)) ∧
    (∀ (m : SymbolTable) (line : String) (n : Int),
      isInstrLine line = true →
      parse_label_in_line m line n = some (m, n + 1)) ∧
    (∀ (m0 : SymbolTable) (xs : List String) (lline : String)
      (ys : List String) (L : String) (m : SymbolTable) (c : Int),
      labelNameOf lline = some L →
      pass1 m0 0 xs = some (m, c) →
      containsKey m L = false →
      ∃ mf cf, pass1 m0 0 (xs ++ lline :: ys) = some (mf, cf) ∧
        lookupSym mf L = some (instrCount xs)) := by
  refine ⟨parse_label_unbound, parse_label_instr, ?_⟩
  intro m0 xs lline ys L m c hL h2 hnb
  have hc : c = instrCount xs := by
    have := pass1_count xs m0 0 (m, c) h2
    simpa using this
  have hne : lline.data.isEmpty = false := by
    obtain ⟨hpar, -⟩ := labelNameOf_inv lline L hL
    rw [startsWithPred_iff] at hpar
    obtain ⟨ch, rest, hd, -⟩ := hpar
    rw [hd]
    rfl
  have happ := pass1_append xs m0 0 (lline :: ys)
  rw [h2] at happ
  simp only [Option.some_bind] at happ
  rw [pass1_cons, hne] at happ
  simp only [Bool.false_eq_true, if_false] at happ
  rw [parse_label_unbound m lline c L hL hnb] at happ
  dsimp only at happ
  obtain ⟨⟨mf, cf⟩, hys⟩ := pass1_total ys (insertSym m L c) c
  rw [hys] at happ
  refine ⟨mf, cf, happ, ?_⟩
  have hins : lookupSym (insertSym m L c) L = some c := by
    rw [lookup_insert]
    simp
  have := pass1_preserve ys (insertSym m L c) c (mf, cf) L c hins hys
  rw [this, hc]

/-- C2 (witness): with an empty initial table, in the file
`["@1", "(LOOP)", "@2"]` the label `LOOP` is bound to 1, the index of
the instruction following the label line. -/
theorem c2_witness :
    ∃ mf cf, pass1 [] 0 (["@1"] ++ "(LOOP)" :: ["@2"]) = some (mf, cf) ∧
      lookupSym mf "LOOP" = some (instrCount ["@1"]) := by
  exact c2_pass1_label_binding.2.2 [] ["@1"] "(LOOP)" ["@2"] "LOOP" [] 1
    (by decide) (by decide) (by decide)

/-- C3 (counterexample): the operand `-5` of the line `@-5` is not a
non-negative integer literal, and it is unbound in the empty table, yet
pass 2 binds nothing and copies the line unchanged — because the source
tests the operand with the signed `i32` parser, which also accepts
negative literals. -/
theorem c3_counterexample_negative_literal :
    specNonNegLiteral "-5" = false ∧ lookupSym [] "-5" = none ∧
    parse_variable_in_line [] "@-5" 16 = some ([], 16, ["@-5"]) := by
  decide

/-- C3 (amended, "non-negative integer literal" replaced by "integer
literal accepted by the `i32` parser"): an `@`-line whose operand parses
as an `i32` is left as-is with no binding; an unbound non-`i32` operand
is bound to the current next free address, which then increments by 1,
and the written operand is that address; a bound non-`i32` operand is
resolved to its existing table value with table and counter unchanged,
so re-resolution always yields the same address; starting from 16,
distinct new symbols receive 16, 17, 18, … in order of first
appearance. -/
theorem c3_variable_allocation :
    (∀ (m : SymbolTable) (line : String) (nm : Int) (tok : String),
      startsWithPred line (fun c => c = '@') = true →
      (strSplit line (fun c => c = '@' || c = ' ')).get? 1 = some tok →
      (parseI32 tok).isSome = true →
      parse_variable_in_line m line nm = some (m, nm, [line])) ∧
    (∀ (m : SymbolTable) (line : String) (nm : Int) (tok : String),
      startsWithPred line (fun c => c = '@') = true →
      (strSplit line (fun c => c = '@' || c = ' ')).get? 1 = some tok →
      (parseI32 tok).isSome = false → containsKey m tok = false →
      parse_variable_in_line m line nm =
        some (insertSym m tok nm, nm + 1, ["@" ++ toString nm])) ∧
    (∀ (m : SymbolTable) (line : String) (nm : Int) (tok : String) (v : Int),
      startsWithPred line (fun c => c = '@') = true →
      (strSplit line (fun c => c = '@' || c = ' ')).get? 1 = some tok →
      (parseI32 tok).isSome = false → lookupSym m tok = some v →
      parse_variable_in_line m line nm = some (m, nm, ["@" ++ toString v])) ∧
    ((pass2 (SymbolTable.new []) 16 ["@a", "@b", "@a", "@c"]).map
        (fun r => (lookupSym r.1 "a", lookupSym r.1 "b", lookupSym r.1 "c",
          r.2.1, r.2.2)) =
      some (some 16, some 17, some 18, 19, ["@16", "@17", "@16", "@18"])) := by
  refine ⟨parse_var_numeric, parse_var_new, parse_var_bound, ?_⟩
  decide

/-- C3 (witness): the amended step facts applied to the concrete lines
`@10`, `@start` (fresh) and `@start` again (bound). -/
theorem c3_witness :
    parse_variable_in_line [] "@10" 16 = some ([], 16, ["@10"]) ∧
    parse_variable_in_line [] "@start" 16 =
      some ([("start", 16)], 17, ["@16"]) ∧
    parse_variable_in_line [("start", 16)] "@start" 17 =
      some ([("start", 16)], 17, ["@16"]) := by
  refine ⟨?_, ?_, ?_⟩
  · exact c3_variable_allocation.1 [] "@10" 16 "10"
      (by decide) (by decide) (by decide)
  · exact c3_variable_allocation.2.1 [] "@start" 16 "start"
      (by decide) (by decide) (by decide) (by decide)
  · exact c3_variable_allocation.2.2.1 [("start", 16)] "@start" 17 "start" 16
      (by decide) (by decide) (by decide) (by decide)

/-- C4: a compute line encodes as the fixed bits "111", then the 7-bit
comp code looked up for `fields[1]` when dest is present and `fields[0]`
otherwise, then the dest code ("000" when absent, else the lookup of
`fields[0]`), then the jump code ("000" when absent, else the lookup of
the last field). -/
theorem c4_compute_encoding_layout (cdec : CDecoder) (fields : List String)
    (d j : Bool) (comp_bin dest_bin jump_bin : String)
    (hcomp : (fields.get? (if d then 1 else 0)).bind
        (lookupStr cdec.comp_map) = some comp_bin)
    (hdest : (if d then (fields.get? 0).bind (lookupStr cdec.dest_map)
        else some "000") = some dest_bin)
    (hjump : (if j then (fields.get? (fields.length - 1)).bind
          (lookupStr cdec.jump_map)
        else some "000") = some jump_bin) :
    CDecoder.decode cdec fields d j =
      some ("111" ++ comp_bin ++ dest_bin ++ jump_bin) := by
  simp only [List.get?_eq_getElem?] at hcomp hdest hjump
  rw [Option.bind_eq_some] at hcomp
  obtain ⟨c0, hc0, hlc⟩ := hcomp
  cases d
  · simp only [Bool.false_eq_true, if_false] at hdest hc0 ⊢
    simp only [Option.some_inj] at hdest
    cases j
    · simp only [Bool.false_eq_true, if_false] at hjump
      simp only [Option.some_inj] at hjump
      simp [CDecoder.decode, hc0, hlc, ← hdest, ← hjump]
    · simp only [if_true] at hjump
      rw [Option.bind_eq_some] at hjump
      obtain ⟨j0, hj0, hlj⟩ := hjump
      simp [CDecoder.decode, hc0, hlc, ← hdest, hj0, hlj]
  · simp only [if_true] at hdest hc0 ⊢
    rw [Option.bind_eq_some] at hdest
    obtain ⟨d0, hd0, hld⟩ := hdest
    cases j
    · simp only [Bool.false_eq_true, if_false] at hjump
      simp only [Option.some_inj] at hjump
      simp [CDecoder.decode, hc0, hlc, hd0, hld, ← hjump]
    · simp only [if_true] at hjump
      rw [Option.bind_eq_some] at hjump
      obtain ⟨j0, hj0, hlj⟩ := hjump
      simp [CDecoder.decode, hc0, hlc, hd0, hld, hj0, hlj]

/-- C4 (witness): the layout applied to `D=D+1;JMP` fields under a
concrete dictionary triple: the encoding is "111" ++ "0011111" ++ "010"
++ "111". -/
theorem c4_witness :
    CDecoder.decode
      ⟨[("D", "010")], [("D+1", "0011111")], [("JMP", "111")]⟩
      ["D", "D+1", "JMP"] true true =
      some ("111" ++ "0011111" ++ "010" ++ "111") := by
  exact c4_compute_encoding_layout
    ⟨[("D", "010")], [("D+1", "0011111")], [("JMP", "111")]⟩
    ["D", "D+1", "JMP"] true true "0011111" "010" "111"
    (by decide) (by decide) (by decide)

/-- C5: a non-`@` line is classified Compute with hasDest iff the line
contains '=', hasJump iff it contains ';', and the fields are exactly
the first `3 − (0 if hasDest else 1) − (0 if hasJump else 1)` tokens of
the split on '='/';'/' ' (which discards a trailing comment); in
particular `D=D+M;JMP` gives fields `["D","D+M","JMP"]` with both flags
set and `D+M` gives `["D+M"]` with both flags clear. -/
theorem c5_compute_classification :
    (∀ line : String, startsWithPred line (fun c => c = '@') = false →
      parse_line line = Parsed.compute
        ((strSplit line (fun c => c = '=' || c = ';' || c = ' ')).take
          (3 - (if strContains line '=' then 0 else 1)
             - (if strContains line ';' then 0 else 1)))
        (strContains line '=') (strContains line ';')) ∧
    parse_line "D=D+M;JMP" = Parsed.compute ["D", "D+M", "JMP"] true true ∧
    parse_line "D+M" = Parsed.compute ["D+M"] false false := by
  refine ⟨?_, by decide, by decide⟩
  intro line h
  unfold parse_line
  rw [h]
  simp

/-- C5 (witness): the classification applied to the concrete jump-only
line `0;JMP`. -/
theorem c5_witness :
    parse_line "0;JMP" = Parsed.compute
      ((strSplit "0;JMP" (fun c => c = '=' || c = ';' || c = ' ')).take
        (3 - (if strContains "0;JMP" '=' then 0 else 1)
           - (if strContains "0;JMP" ';' then 0 else 1)))
      (strContains "0;JMP" '=') (strContains "0;JMP" ';') :=
  c5_compute_classification.1 "0;JMP" (by decide)

/-- C6: an `@`-line is classified Address with the single operand being
the first space-separated token of the line after the marker prefix is
removed (dropping any trailing comment), and the Address encoder maps a
non-negative in-range operand to '0' followed by its binary value
zero-padded to 15 bits; in particular `@100` classifies to operand
`["100"]` and 100 encodes to "0000000001100100". -/
theorem c6_address_classification :
    (∀ line : String, startsWithPred line (fun c => c = '@') = true →
      ∃ tok rest,
        strSplit (trimLeftMatches line '@') (fun c => c = ' ') = tok :: rest ∧
        parse_line line = Parsed.address [tok]) ∧
    (∀ (fields : List String) (tok : String) (a : Int),
      fields.get? 0 = some tok → parseI32 tok = some a → 0 ≤ a →
      ADecoder.decode fields = some (String.mk ('0' ::
        (List.replicate (15 - (natToBin a.toNat).length) '0' ++
          natToBin a.toNat)))) ∧
    parse_line "@100" = Parsed.address ["100"] ∧
    ADecoder.decode ["100"] = some "0000000001100100" := by
  refine ⟨?_, ?_, by decide, by decide⟩
  · intro line h
    unfold parse_line
    rw [h]
    simp only [if_true]
    match hs : strSplit (trimLeftMatches line '@') (fun c => c = ' ') with
    | [] =>
      exact absurd (congrArg List.length hs)
        (by simp [strSplit, splitChars_ne_nil])
    | tok :: rest =>
      refine ⟨tok, rest, rfl, ?_⟩
      match rest with
      | [] => simp
      | r2 :: rest2 => simp
  · intro fields tok a hget hparse h0
    rw [aDecode_shape fields tok a hget hparse]
    unfold format015b
    rw [if_pos h0]

/-- C6 (witness): the Address classification applied to the concrete
line `@sum // comment` and the encoder applied to operand 4. -/
theorem c6_witness :
    (∃ tok rest,
      strSplit (trimLeftMatches "@sum // comment" '@') (fun c => c = ' ') =
        tok :: rest ∧
      parse_line "@sum // comment" = Parsed.address [tok]) ∧
    ADecoder.decode ["4"] = some (String.mk ('0' ::
      (List.replicate (15 - (natToBin (4 : Int).toNat).length) '0' ++
        natToBin (4 : Int).toNat))) := by
  constructor
  · exact c6_address_classification.1 "@sum // comment" (by decide)
  · exact c6_address_classification.2.1 ["4"] "4" 4 (by decide) (by decide)
      (by decide)

/-- C7: a bound symbol is never rebound: each pass-1 step, each pass-2
step, and the whole two-pass `parse_file` preserve every existing
binding, and re-defining an already-bound label is a no-op (table and
counter unchanged — first definition wins). -/
theorem c7_bindings_never_change :
    (∀ (m : SymbolTable) (line : String) (n : Int)
      (r : SymbolTable × Int) (k : String) (v : Int),
      lookupSym m k = some v → parse_label_in_line m line n = some r →
      lookupSym r.1 k = some v) ∧
    (∀ (m : SymbolTable) (line : String) (nm : Int)
      (r : SymbolTable × Int × List String) (k : String) (v : Int),
      lookupSym m k = some v → parse_variable_in_line m line nm = some r →
      lookupSym r.1 k = some v) ∧
    (∀ (m : SymbolTable) (lines : List String)
      (r : SymbolTable × List String) (k : String) (v : Int),
      lookupSym m k = some v → parse_file m lines = some r →
      lookupSym r.1 k = some v) ∧
    (∀ (m : SymbolTable) (line : String) (n : Int) (L : String),
      labelNameOf line = some L → containsKey m L = true →
      parse_label_in_line m line n = some (m, n)) := by
  refine ⟨parse_label_preserve, parse_var_preserve, ?_, parse_label_bound⟩
  intro m lines r k v hv h
  obtain ⟨m1, c, m2, nm, out, h1, h2, hr⟩ := parse_file_inv m lines r h
  have hm1 := pass1_preserve lines m 0 (m1, c) k v hv h1
  have hm2 := pass2_preserve lines m1 16 (m2, nm, out) k v hm1 h2
  rw [hr]
  exact hm2

/-- C7 (witness): applied to the pass-1 step on `(END)` over a table
where `END` is already bound to 3: the value stays 3 and the redefine is
a no-op. -/
theorem c7_witness :
    lookupSym [("END", 3)] "END" = some 3 ∧
    parse_label_in_line [("END", 3)] "(END)" 10 = some ([("END", 3)], 10) := by
  constructor
  · decide
  · exact c7_bindings_never_change.2.2.2 [("END", 3)] "(END)" 10 "END"
      (by decide) (by decide)

/-- C8: however the external seed binds names, after construction the
table binds SP=0, LCL=1, ARG=2, THIS=3, THAT=4, SCREEN=16384, KBD=24576
and R0..R15 = 0..15 (the fixed insertions shadow any seed binding). -/
theorem c8_predefined_symbols (seed : List (String × Int)) :
    lookupSym (SymbolTable.new seed) "SP" = some 0 ∧
    lookupSym (SymbolTable.new seed) "LCL" = some 1 ∧
    lookupSym (SymbolTable.new seed) "ARG" = some 2 ∧
    lookupSym (SymbolTable.new seed) "THIS" = some 3 ∧
    lookupSym (SymbolTable.new seed) "THAT" = some 4 ∧
    lookupSym (SymbolTable.new seed) "SCREEN" = some 16384 ∧
    lookupSym (SymbolTable.new seed) "KBD" = some 24576 ∧
    lookupSym (SymbolTable.new seed) "R0" = some 0 ∧
    lookupSym (SymbolTable.new seed) "R1" = some 1 ∧
    lookupSym (SymbolTable.new seed) "R2" = some 2 ∧
    lookupSym (SymbolTable.new seed) "R3" = some 3 ∧
    lookupSym (SymbolTable.new seed) "R4" = some 4 ∧
    lookupSym (SymbolTable.new seed) "R5" = some 5 ∧
    lookupSym (SymbolTable.new seed) "R6" = some 6 ∧
    lookupSym (SymbolTable.new seed) "R7" = some 7 ∧
    lookupSym (SymbolTable.new seed) "R8" = some 8 ∧
    lookupSym (SymbolTable.new seed) "R9" = some 9 ∧
    lookupSym (SymbolTable.new seed) "R10" = some 10 ∧
    lookupSym (SymbolTable.new seed) "R11" = some 11 ∧
    lookupSym (SymbolTable.new seed) "R12" = some 12 ∧
    lookupSym (SymbolTable.new seed) "R13" = some 13 ∧
    lookupSym (SymbolTable.new seed) "R14" = some 14 ∧
    lookupSym (SymbolTable.new seed) "R15" = some 15 :=
  ⟨rfl, rfl, rfl, rfl, rfl, rfl, rfl, rfl, rfl, rfl, rfl, rfl, rfl, rfl,
    rfl, rfl, rfl, rfl, rfl, rfl, rfl, rfl, rfl⟩

theorem assembleUnit_cons (c : CDecoder) (line : String) (rest : List String) :
    assembleUnit c (line :: rest) =
      match assembleLine c line with
      | none => none
      | some b =>
        match assembleUnit c rest with
        | none => none
        | some bs => some (b :: bs) := rfl

/-- C9: a mnemonic lookup miss is fatal: the compute encoder yields no
encoding (no default code is substituted) when the dest mnemonic (dest
present) misses its dictionary, when the comp mnemonic misses its
dictionary (dest present or not), or when the jump mnemonic (jump
present) misses its dictionary, and one failing line anywhere in a unit
makes the whole unit's output nothing — no partial output, no retry. -/
theorem c9_lookup_miss_is_fatal :
    (∀ (cdec : CDecoder) (fields : List String) (j : Bool) (d0 : String),
      fields.get? 0 = some d0 → lookupStr cdec.dest_map d0 = none →
      CDecoder.decode cdec fields true j = none) ∧
    (∀ (cdec : CDecoder) (fields : List String) (d j : Bool)
      (db c0 : String),
      (if d then (fields.get? 0).bind (lookupStr cdec.dest_map)
        else some "000") = some db →
      fields.get? (if d then 1 else 0) = some c0 →
      lookupStr cdec.comp_map c0 = none →
      CDecoder.decode cdec fields d j = none) ∧
    (∀ (cdec : CDecoder) (fields : List String) (d : Bool)
      (db c0 cb j0 : String),
      (if d then (fields.get? 0).bind (lookupStr cdec.dest_map)
        else some "000") = some db →
      fields.get? (if d then 1 else 0) = some c0 →
      lookupStr cdec.comp_map c0 = some cb →
      fields.get? (fields.length - 1) = some j0 →
      lookupStr cdec.jump_map j0 = none →
      CDecoder.decode cdec fields d true = none) ∧
    (∀ (cdec : CDecoder) (pre : List String) (line : String)
      (post : List String),
      assembleLine cdec line = none →
      assembleUnit cdec (pre ++ line :: post) = none) := by
  refine ⟨?_, ?_, ?_, ?_⟩
  · intro cdec fields j d0 hd0 hmiss
    simp only [List.get?_eq_getElem?] at hd0
    unfold CDecoder.decode
    simp [hd0, hmiss]
  · intro cdec fields d j db c0 hdest hc0 hmiss
    simp only [List.get?_eq_getElem?] at hdest hc0
    cases d
    · simp only [Bool.false_eq_true, if_false] at hc0
      unfold CDecoder.decode
      simp [hc0, hmiss]
    · simp only [if_true] at hdest hc0
      rw [Option.bind_eq_some] at hdest
      obtain ⟨d0, hd0, hld⟩ := hdest
      unfold CDecoder.decode
      simp [hd0, hld, hc0, hmiss]
  · intro cdec fields d db c0 cb j0 hdest hc0 hcb hj0 hjmiss
    simp only [List.get?_eq_getElem?] at hdest hc0 hj0
    cases d
    · simp only [Bool.false_eq_true, if_false] at hc0
      unfold CDecoder.decode
      simp [hc0, hcb, hj0, hjmiss]
    · simp only [if_true] at hdest hc0
      rw [Option.bind_eq_some] at hdest
      obtain ⟨d0, hd0, hld⟩ := hdest
      unfold CDecoder.decode
      simp [hd0, hld, hc0, hcb, hj0, hjmiss]
  · intro cdec pre line post hline
    induction pre with
    | nil =>
      rw [List.nil_append, assembleUnit_cons, hline]
    | cons p rest ih =>
      rw [List.cons_append, assembleUnit_cons]
      match hp : assembleLine cdec p with
      | none => rfl
      | some b => rw [ih]

/-- C9 (witness): under a concrete dictionary triple, a comp miss with
dest present (`D=X+1`) and a jump miss (`0;JNE`) each make decode yield
nothing, and a unit containing the failing line `0;JNE` encodes to
nothing as a whole. -/
theorem c9_witness :
    CDecoder.decode
      ⟨[("D", "010")], [("D+1", "0011111"), ("0", "0101010")],
        [("JMP", "111")]⟩ ["D", "X+1"] true false = none ∧
    CDecoder.decode
      ⟨[("D", "010")], [("D+1", "0011111"), ("0", "0101010")],
        [("JMP", "111")]⟩ ["0", "JNE"] false true = none ∧
    assembleUnit
      ⟨[("D", "010")], [("D+1", "0011111"), ("0", "0101010")],
        [("JMP", "111")]⟩ (["@4"] ++ "0;JNE" :: ["D=D+1"]) = none := by
  refine ⟨?_, ?_, ?_⟩
  · exact c9_lookup_miss_is_fatal.2.1
      ⟨[("D", "010")], [("D+1", "0011111"), ("0", "0101010")],
        [("JMP", "111")]⟩ ["D", "X+1"] true false "010" "X+1"
      (by decide) (by decide) (by decide)
  · exact c9_lookup_miss_is_fatal.2.2.1
      ⟨[("D", "010")], [("D+1", "0011111"), ("0", "0101010")],
        [("JMP", "111")]⟩ ["0", "JNE"] false "000" "0" "0101010" "JNE"
      (by decide) (by decide) (by decide) (by decide) (by decide)
  · apply c9_lookup_miss_is_fatal.2.2.2
    unfold assembleLine
    rw [show parse_line "0;JNE" = Parsed.compute ["0", "JNE"] false true from
      by decide]
    exact c9_lookup_miss_is_fatal.2.2.1
      ⟨[("D", "010")], [("D+1", "0011111"), ("0", "0101010")],
        [("JMP", "111")]⟩ ["0", "JNE"] false "000" "0" "0101010" "JNE"
      (by decide) (by decide) (by decide) (by decide) (by decide)

/-- C10: a line starting with a space or '/' is a no-op in both passes:
pass 1 keeps the ROM counter and table unchanged, pass 2 keeps the
next-free-address counter and table unchanged and writes nothing. -/
theorem c10_comment_lines_are_noops (m : SymbolTable) (line : String)
    (n nm : Int)
    (h : startsWithPred line (fun c => c = ' ' || c = '/') = true) :
    parse_label_in_line m line n = some (m, n) ∧
    parse_variable_in_line m line nm = some (m, nm, []) := by
  constructor
  · exact parse_label_skip m line n h
  · apply parse_var_skip
    rw [startsWithPred_iff] at h ⊢
    obtain ⟨c, rest, hd, hp⟩ := h
    refine ⟨c, rest, hd, ?_⟩
    revert hp
    by_cases h1 : c = ' ' <;> by_cases h2 : c = '/' <;> simp [h1, h2]

/-- C10 (witness): applied to the comment line `// comment`. -/
theorem c10_witness :
    parse_label_in_line [] "// comment" 5 = some ([], 5) ∧
    parse_variable_in_line [] "// comment" 16 = some ([], 16, []) :=
  c10_comment_lines_are_noops [] "// comment" 5 16 (by decide)
